import Mathlib

/-
  Verification of the meowdown templating core (src/main.rs).

  Shallow embedding conventions:
  * Rust `String`/`&str` become `Str := List Char`; string literals are
    written with `\x7b`/`\x7d` escapes for braces and converted by `.data`.
  * Hash maps become association lists with first-match lookup; `insert`
    removes the old binding to keep keys unique (hash-map iteration order
    is unspecified in the source, the list order is one admissible order).
  * Fallible operations (unwrap panics, out-of-bounds slices) return
    `Option`/`Res` with `none`/`.err` marking the panic.
  * Recursion that is not structurally terminating in the source
    (rendering, layout resolution, the control-block parser's scan)
    is given an explicit fuel parameter; `Res.fuelOut` / `none` marks
    fuel exhaustion.  A sufficiency lemma shows the parser never runs
    out when the fuel exceeds the input length.
  * The function registry (`GlobalContext.functions`) is passed as a
    separate `Registry` argument to `render` (storing the functions
    inside the global-state record would be a non-positive occurrence);
    registered functions receive the site-string portion of the global
    state, which is all the relevant built-ins read.
-/

/-- Rust strings are modelled as lists of characters. -/
abbrev Str := List Char

/-- First-match lookup in an association list (models `HashMap::get`). -/
def lookupAssoc {α : Type} : List (Str × α) → Str → Option α
  | [], _ => none
  | (k, v) :: rest, key => if k = key then some v else lookupAssoc rest key

/-- Remove every binding of a key (helper for `insertAssoc`). -/
def eraseAssoc {α : Type} : List (Str × α) → Str → List (Str × α)
  | [], _ => []
  | (k, v) :: rest, key => if k = key then eraseAssoc rest key else (k, v) :: eraseAssoc rest key

/-- Insert a binding, replacing an existing one (models `HashMap::insert`). -/
def insertAssoc {α : Type} (key : Str) (v : α) (m : List (Str × α)) : List (Str × α) :=
  (key, v) :: eraseAssoc m key

/-- Insert many bindings (models `HashMap::extend`). -/
def extendAssoc {α : Type} (m : List (Str × α)) (adds : List (Str × α)) : List (Str × α) :=
  adds.foldl (fun acc kv => insertAssoc kv.1 kv.2 acc) m

/-- Effectful map over a list where each element may panic (`none`). -/
def mapOpt {α β : Type} (f : α → Option β) : List α → Option (List β)
  | [] => some []
  | a :: rest => (f a).bind fun b => (mapOpt f rest).map (b :: ·)

/-- Concatenation of rendered fragments (`Vec<String>::join("")`). -/
def joinAll (l : List Str) : Str := l.foldr (· ++ ·) []

/-- Index of the first occurrence of `pat` in `s`
    (models Rust `str::find` with a substring pattern). -/
def findSub : Str → Str → Option Nat
  | [], pat => if pat = [] then some 0 else none
  | c :: rest, pat =>
    if pat.isPrefixOf (c :: rest) then some 0
    else (findSub rest pat).map (· + 1)

/-- Rust `str::trim`: drop whitespace from both ends. -/
def trimChars (s : Str) : Str :=
  ((s.dropWhile Char.isWhitespace).reverse.dropWhile Char.isWhitespace).reverse

/-- Rust `str::split_whitespace`: maximal non-whitespace runs.
    `acc` is the current word accumulated in reverse. -/
def splitWSAux : Str → Str → List Str
  | [], acc => if acc = [] then [] else [acc.reverse]
  | c :: rest, acc =>
    if c.isWhitespace then
      if acc = [] then splitWSAux rest [] else acc.reverse :: splitWSAux rest []
    else splitWSAux rest (c :: acc)

def splitWS (s : Str) : List Str := splitWSAux s []

/-- Rust `str::split_once` with a substring pattern. -/
def splitOnceSub (s pat : Str) : Option (Str × Str) :=
  match findSub s pat with
  | some i => some (s.take i, s.drop (i + pat.length))
  | none => none

/-- Rust `str::replace`, fuelled scan: at each position, if the (non-empty)
    pattern is a prefix, emit the replacement and skip the pattern,
    otherwise keep the character.  One unit of fuel is spent per scan
    step, so `s.length` fuel always suffices. -/
def replaceAllF : Nat → Str → Str → Str → Str
  | 0, s, _, _ => s
  | _ + 1, [], _, _ => []
  | fuel + 1, c :: rest, p, v =>
    if p ≠ [] ∧ p.isPrefixOf (c :: rest) then
      v ++ replaceAllF fuel ((c :: rest).drop p.length) p v
    else
      c :: replaceAllF fuel rest p v

def replaceAll (s p v : Str) : Str := replaceAllF s.length s p v

/-- Three-valued result: success, a panic in the source, or fuel ran out. -/
inductive Res (α : Type) where
  | ok : α → Res α
  | err : Res α
  | fuelOut : Res α

def Res.bind {α β : Type} : Res α → (α → Res β) → Res β
  | .ok a, f => f a
  | .err, _ => .err
  | .fuelOut, _ => .fuelOut

def Res.map {α β : Type} (f : α → β) : Res α → Res β
  | .ok a => .ok (f a)
  | .err => .err
  | .fuelOut => .fuelOut

-- ========== Data model ==========

/-- `serde_yaml::Value`, restricted to the shapes the core inspects. -/
inductive Value where
  | vNull : Value
  | vBool : Bool → Value
  | vNum : Int → Value
  | vStr : Str → Value
  | vSeq : List Value → Value
  | vMap : List (Value × Value) → Value

/-- `Value::as_str`: only plain strings convert. -/
def Value.asStr : Value → Option Str
  | .vStr s => some s
  | _ => none

abbrev FrontMatter := List (Str × Str)

/-- The template AST (`enum TemplateNode`). -/
inductive TemplateNode where
  | page : Str → FrontMatter → TemplateNode → Str → Option TemplateNode → TemplateNode
  | layout : Str → FrontMatter → TemplateNode → Option TemplateNode → TemplateNode
  | ifBlock : Str → TemplateNode → Option TemplateNode → TemplateNode
  | forEachBlock : Str → Str → TemplateNode → TemplateNode
  | func : Str → List Str → Option Str → TemplateNode
  | stringContent : Str → TemplateNode
  | composite : List TemplateNode → TemplateNode

/-- A scope in the lexical context chain (`struct TemplateContext`). -/
inductive TemplateContext where
  | mk : List (Str × Str) → List (Str × TemplateNode) → List (Str × Value) →
         Option TemplateContext → TemplateContext

def TemplateContext.strings : TemplateContext → List (Str × Str)
  | .mk s _ _ _ => s

def TemplateContext.nodes : TemplateContext → List (Str × TemplateNode)
  | .mk _ n _ _ => n

def TemplateContext.json_data : TemplateContext → List (Str × Value)
  | .mk _ _ j _ => j

def TemplateContext.parent : TemplateContext → Option TemplateContext
  | .mk _ _ _ p => p

/-- `TemplateContext::get_string`: local string map first, then the
    parent chain. -/
def TemplateContext.get_string : TemplateContext → Str → Option Str
  | .mk strings _ _ parent, key =>
    match lookupAssoc strings key with
    | some v => some v
    | none =>
      match parent with
      | some p => p.get_string key
      | none => none

/-- `TemplateContext::add_front_matter`: extend the local string map. -/
def TemplateContext.add_front_matter : TemplateContext → FrontMatter → TemplateContext
  | .mk strings nodes json parent, fm => .mk (extendAssoc strings fm) nodes json parent

/-- The site-wide constant portion of `struct GlobalContext`. -/
structure GlobalContext where
  site_strings : List (Str × Str)

/-- Template functions: `(args, optional block text, context, build state)`. -/
abbrev TemplateFunc := List Str → Option Str → TemplateContext → GlobalContext → Option Str

/-- The function registry portion of `struct GlobalContext`. -/
abbrev Registry := List (Str × TemplateFunc)

-- ========== Interpolation passes ==========

/-- `TemplateNode::perform_substitutions_str`: for each spelling of the
    key — first padded with spaces, then bare; each wrapped in double then
    single braces — replace every occurrence with the value.  The loop in
    the source iterates over the arrays `[" k ", k]` and
    `[\x7b\x7bk\x7d\x7d, \x7bk\x7d]` in this order, which unrolls to the
    four sequential `replace` calls below. -/
def perform_substitutions_str (s : Str) (k v : Str) : Str :=
  let wrap2 : Str → Str := fun x => '{' :: '{' :: x ++ ['}', '}']
  let wrap1 : Str → Str := fun x => '{' :: x ++ ['}']
  let spaced : Str := ' ' :: k ++ [' ']
  let s1 := replaceAll s (wrap2 spaced) v
  let s2 := replaceAll s1 (wrap1 spaced) v
  let s3 := replaceAll s2 (wrap2 k) v
  replaceAll s3 (wrap1 k) v

/-- `TemplateNode::perform_substitutions_strings`: fold the single-key
    pass over the entries of a string map. -/
def perform_substitutions_strings (s : Str) (strings : List (Str × Str)) : Str :=
  strings.foldl (fun acc kv => perform_substitutions_str acc kv.1 kv.2) s

/-- `TemplateNode::apply_substitutions`: substitute this scope's string
    entries, then its named sub-nodes (each rendered on demand with the
    current context), recurse to the parent scope, and at the root
    substitute the site-wide string constants.  `renderF` is the renderer
    (a panic during a sub-render propagates as `none`). -/
def apply_substitutions
    (renderF : TemplateNode → TemplateContext → GlobalContext → Option Str)
    (g : GlobalContext) : Str → TemplateContext → Option Str
  | s, ctx@(.mk strings nodes _ parent) =>
    let out1 := perform_substitutions_strings s strings
    (mapOpt (fun kv => (renderF kv.2 ctx g).map (fun r => (kv.1, r))) nodes).bind
      fun rendered =>
        let out2 := perform_substitutions_strings out1 rendered
        match parent with
        | some p => apply_substitutions renderF g out2 p
        | none =>
          some (g.site_strings.foldl
            (fun acc kv => perform_substitutions_str acc kv.1 kv.2) out2)

-- ========== Renderer ==========

/-- `TemplateNode::render`.  Fuel bounds the recursion depth (the source
    recursion is unbounded in general: contexts may carry arbitrary
    sub-nodes); `none` is a panic in the source or exhausted fuel.
    Registered functions may panic (`none`), which propagates. -/
def TemplateNode.render (funcs : Registry) :
    Nat → TemplateNode → TemplateContext → GlobalContext → Option Str
  | 0, _, _, _ => none
  | fuel + 1, node, ctx, g =>
    match node with
    | .page _ fm content _ parent =>
      -- fresh child context for the page body
      let pc0 : TemplateContext := .mk [] [] [] (some ctx)
      (TemplateNode.render funcs fuel content pc0 g).bind fun inner =>
      -- apply_all_substitutions: add front matter to the context, then
      -- front-matter interpolation, then the context-chain pass
      let pc1 := pc0.add_front_matter fm
      let out1 := perform_substitutions_strings inner fm
      (apply_substitutions (fun n c gg => TemplateNode.render funcs fuel n c gg)
          g out1 pc1).bind fun output =>
      match parent with
      | none => some output
      | some p =>
        let lc : TemplateContext := .mk [("content".data, output)] [] [] (some pc1)
        TemplateNode.render funcs fuel p lc g
    | .layout _ fm content parent =>
      (TemplateNode.render funcs fuel content ctx g).bind fun inner =>
      let ctx1 := ctx.add_front_matter fm
      let out1 := perform_substitutions_strings inner fm
      (apply_substitutions (fun n c gg => TemplateNode.render funcs fuel n c gg)
          g out1 ctx1).bind fun output =>
      match parent with
      | none => some output
      | some p =>
        let lc : TemplateContext := .mk [("content".data, output)] [] [] (some ctx1)
        TemplateNode.render funcs fuel p lc g
    | .ifBlock condition true_branch false_branch =>
      match ctx.get_string condition with
      | some _ => TemplateNode.render funcs fuel true_branch ctx g
      | none =>
        match false_branch with
        | some fb => TemplateNode.render funcs fuel fb ctx g
        | none => some []
    | .forEachBlock key _ body =>
      match lookupAssoc ctx.json_data key with
      | some (Value.vSeq items) =>
        (mapOpt (fun item =>
          let seed : List (Str × Str) :=
            match item with
            | Value.vMap pairs =>
              pairs.foldl (fun acc kv =>
                match kv.1.asStr, kv.2.asStr with
                | some ks, some vs => insertAssoc ks vs acc
                | _, _ => acc) []
            | _ => []
          TemplateNode.render funcs fuel body (.mk seed [] [] (some ctx)) g) items).map
          joinAll
      | _ => some []
    | .func name args block_content =>
      match lookupAssoc funcs name with
      | some f => f args block_content ctx g
      | none => some name
    | .stringContent s => some s
    | .composite ns =>
      (mapOpt (fun n => TemplateNode.render funcs fuel n ctx g) ns).map joinAll

-- ========== URL helpers ==========

/-- `has_protocol`: a non-empty all-ASCII-alphabetic token before the
    first `:`. -/
def has_protocol (url : Str) : Bool :=
  match url.findIdx? (· = ':') with
  | some colonPos =>
    if colonPos > 0 then (url.take colonPos).all Char.isAlpha else false
  | none => false

/-- Rust `str::trim_end_matches('/')`. -/
def trimEndSlashes (s : Str) : Str := (s.reverse.dropWhile (· = '/')).reverse

/-- Rust `str::trim_start_matches('/')`. -/
def trimStartSlashes (s : Str) : Str := s.dropWhile (· = '/')

/-- `GlobalContext::relative_url`.  `none` models the panic when
    `site.url` is absent from the site string map. -/
def relative_url (g : GlobalContext) (path : Str) : Option Str :=
  if has_protocol path || (path.take 1 = ['#']) then
    some path
  else
    match lookupAssoc g.site_strings "site.url".data with
    | none => none
    | some base => some (trimEndSlashes base ++ '/' :: trimStartSlashes path)

/-- The closure registered under `"relative-url"` in
    `GlobalContext::with_default_funcs`: it unwraps `args.get(0)`
    (`none` models that panic) and delegates to `relative_url`. -/
def relative_url_func : TemplateFunc := fun args _ _ g =>
  match args.get? 0 with
  | none => none
  | some a => relative_url g a

/-- The names registered by `GlobalContext::with_default_funcs`, in
    registration order. -/
def defaultFuncNames : List Str :=
  ["uppercase".data, "lowercase".data, "date".data, "datetime".data,
   "datetime-pretty".data, "modified-datetime-pretty".data, "date_html".data,
   "tags_html".data, "categories_html".data, "relative-url".data,
   "image_html".data, "list_md".data, "json_list".data]

-- ========== Control-block parser ==========

def openBB : Str := "\x7b\x7b".data

def closeBB : Str := "\x7d\x7d".data

/-- The end pattern `format!("\x7b\x7b\x7b\x7b \x7bend_tag\x7d \x7d\x7d\x7d\x7d")`,
    i.e. the end tag wrapped as `\x7b\x7b endtag \x7d\x7d` with single spaces. -/
def end_pattern (endTag : Str) : Str := openBB ++ ' ' :: endTag ++ ' ' :: closeBB

/-- The exact `\x7b\x7b else \x7d\x7d` marker used by `split_once`. -/
def elsePattern : Str := end_pattern "else".data

/-- `GlobalContext::parse_block_content`: split at the first occurrence of
    the end pattern.  When the pattern is absent the source computes
    `end_pos = content.len()` and then slices
    `content[end_pos + end_pattern.len()..]`, which is out of bounds and
    panics; `none` models that panic. -/
def parse_block_content (content : Str) (endTag : Str) : Option (Str × Str) :=
  match findSub content (end_pattern endTag) with
  | some e => some (content.take e, content.drop (e + (end_pattern endTag).length))
  | none => none

/-- `GlobalContext::parse_function_call`: first whitespace token is the
    name, the rest are the arguments. -/
def parse_function_call (tag : Str) : Option (Str × List Str) :=
  match splitWS tag with
  | [] => none
  | name :: rest => some (name, rest)

/-- The scanning loop of `GlobalContext::parse_control_blocks`, returning
    the node list in source order.  `fns` is the set of registered
    function names (`self.functions.contains_key`).  `.err` models the
    panics in the source: the `unwrap` on a missing `\x7d\x7d` after an
    opening `\x7b\x7b`, and the out-of-bounds slice in
    `parse_block_content` when an end tag is missing.  Fuel is spent once
    per processed tag and per recursive block parse; the input length
    plus one always suffices (proved below). -/
def parse_control_blocks_list (fns : List Str) : Nat → Str → Res (List TemplateNode)
  | 0, _ => .fuelOut
  | fuel + 1, remaining =>
    match findSub remaining openBB with
    | none => .ok (if remaining = [] then [] else [.stringContent remaining])
    | some openPos =>
      let before := remaining.take openPos
      let beforeNodes : List TemplateNode :=
        if before = [] then [] else [.stringContent before]
      match findSub (remaining.drop openPos) closeBB with
      | none => .err
      | some rel =>
        let completeTag := (remaining.drop openPos).take (rel + 2)
        let tag := trimChars ((remaining.drop (openPos + 2)).take (rel - 2))
        let rest := remaining.drop (openPos + rel + 2)
        let fallbackNode : TemplateNode :=
          match parse_function_call tag with
          | some (name, args) =>
            if fns.contains name then .func name args none
            else .stringContent completeTag
          | none => .stringContent completeTag
        let cont : Str → List TemplateNode → Res (List TemplateNode) := fun r nds =>
          (parse_control_blocks_list fns fuel r).bind fun rn =>
            .ok (beforeNodes ++ nds ++ rn)
        match splitWS tag with
        | [t1, t2] =>
          if t1 = "if".data then
            match parse_block_content rest "endif".data with
            | none => .err
            | some (inner, rest2) =>
              let tf : Str × Option Str :=
                match splitOnceSub inner elsePattern with
                | some (a, b) => (a, some b)
                | none => (inner, none)
              (parse_control_blocks_list fns fuel tf.1).bind fun tns =>
                (match tf.2 with
                 | none => Res.ok none
                 | some c =>
                   (parse_control_blocks_list fns fuel c).map
                     (fun l => some (TemplateNode.composite l))).bind fun fn =>
                  cont rest2 [.ifBlock t2 (.composite tns) fn]
          else cont rest [fallbackNode]
        | [t1] =>
          -- a stray `else` only logs a warning and is skipped
          if t1 = "else".data then cont rest []
          else cont rest [fallbackNode]
        | [t1, t2, t3, t4] =>
          if t1 = "foreach".data ∧ t3 = "as".data then
            match parse_block_content rest "endforeach".data with
            | none => .err
            | some (inner, rest2) =>
              (parse_control_blocks_list fns fuel inner).bind fun ins =>
                cont rest2 [.forEachBlock t2 t4 (.composite ins)]
          else cont rest [fallbackNode]
        | _ => cont rest [fallbackNode]

/-- `GlobalContext::parse_control_blocks`: the scanned nodes wrapped in a
    `Composite`. -/
def parse_control_blocks (fns : List Str) (fuel : Nat) (content : Str) :
    Res TemplateNode :=
  (parse_control_blocks_list fns fuel content).map .composite

-- ========== Layout resolver & cache ==========

/-- The build-state pieces `get_layout` touches: the layout cache, plus an
    instrumentation log of the template files read (in order). -/
structure LayoutSt where
  cache : List (Str × TemplateNode)
  reads : List Str

/-- `GlobalContext::get_layout`.  The filesystem collaborator is an
    association list from layout name to the already-split front matter
    and body of `templates/<name>.tpl.html` (file reading and YAML
    parsing are external to the core).  `.err` models the panic when the
    template file cannot be read; recursion into the parent chain is
    fuelled (the source recursion has no cycle guard).  The cache is
    consulted first and filled just before returning; every cache miss
    appends the name to `reads`. -/
def get_layout (fns : List Str) (fsys : List (Str × (FrontMatter × Str))) :
    Nat → LayoutSt → Str → Res (TemplateNode × LayoutSt)
  | 0, _, _ => .fuelOut
  | fuel + 1, st, name =>
    match lookupAssoc st.cache name with
    | some l => .ok (l, st)
    | none =>
      match lookupAssoc fsys name with
      | none => .err
      | some (fm0, html) =>
        let st1 : LayoutSt := { st with reads := st.reads ++ [name] }
        let fm :=
          if lookupAssoc fm0 "layout".data = none ∧ name ≠ "default".data ∧
              name ≠ "site".data then
            insertAssoc "layout".data "default".data fm0
          else fm0
        -- `get_front_matter_json_data` leaves the front matter unchanged
        (match lookupAssoc fm "layout".data with
         | some ln =>
           if ln = [] then Res.ok (none, st1)
           else (get_layout fns fsys fuel st1 ln).map
             (fun (p : TemplateNode × LayoutSt) => (some p.1, p.2))
         | none => Res.ok (none, st1)).bind fun pr =>
          (parse_control_blocks fns (html.length + 1) html).bind fun content_node =>
            let lay := TemplateNode.layout name fm content_node pr.1
            .ok (lay, { pr.2 with cache := insertAssoc name lay pr.2.cache })

-- ========== Concrete fixtures ==========

/-- The per-record seeding performed by the `ForEachBlock` render arm:
    string entries from fields whose key and value are both plain
    strings; every other field is ignored. -/
def seed_item_strings : Value → List (Str × Str)
  | .vMap pairs =>
    pairs.foldl (fun acc kv =>
      match kv.1.asStr, kv.2.asStr with
      | some ks, some vs => insertAssoc ks vs acc
      | _, _ => acc) []
  | _ => []

/-- An empty build state (no site strings). -/
def g0 : GlobalContext := ⟨[]⟩

/-- A build state whose site map binds `site.url` to `https://x.test`. -/
def gSite : GlobalContext := ⟨[("site.url".data, "https://x.test".data)]⟩

/-- A root scope binding `X` to the empty string. -/
def ctxGrand : TemplateContext := .mk [("X".data, [])] [] [] none

/-- A middle scope under `ctxGrand`. -/
def ctxMid : TemplateContext := .mk [] [] [] (some ctxGrand)

/-- A scope whose only binding of `X` sits two parents up (and is the
    empty string). -/
def ctxX : TemplateContext := .mk [] [] [] (some ctxMid)

/-- A root scope with no bindings at all. -/
def ctxNoX : TemplateContext := .mk [] [] [] none

/-- Template text `\x7b\x7b if X \x7d\x7dA\x7b\x7b else \x7d\x7dB\x7b\x7b endif \x7d\x7d`. -/
def tplIfElse : Str := "\x7b\x7b if X \x7d\x7dA\x7b\x7b else \x7d\x7dB\x7b\x7b endif \x7d\x7d".data

/-- Template text `\x7b\x7b if X \x7d\x7dA\x7b\x7b endif \x7d\x7d` (no else). -/
def tplIfNoElse : Str := "\x7b\x7b if X \x7d\x7dA\x7b\x7b endif \x7d\x7d".data

/-- The tree the parser produces for `tplIfElse`. -/
def nodeIfElse : TemplateNode :=
  .composite [.ifBlock "X".data (.composite [.stringContent "A".data])
    (some (.composite [.stringContent "B".data]))]

/-- The tree the parser produces for `tplIfNoElse`. -/
def nodeIfNoElse : TemplateNode :=
  .composite [.ifBlock "X".data (.composite [.stringContent "A".data]) none]

/-- The claim C1 template with the end tags written without inner
    spaces: `\x7b\x7bif A\x7d\x7d\x7b\x7bif B\x7d\x7dX\x7b\x7bendif\x7d\x7dY\x7b\x7bendif\x7d\x7d`. -/
def tplNestedIf : Str :=
  "\x7b\x7bif A\x7d\x7d\x7b\x7bif B\x7d\x7dX\x7b\x7bendif\x7d\x7dY\x7b\x7bendif\x7d\x7d".data

/-- The claim C1 template with the end tags in the parser's own spaced
    spelling. -/
def tplNestedIfSpaced : Str :=
  "\x7b\x7bif A\x7d\x7d\x7b\x7bif B\x7d\x7dX\x7b\x7b endif \x7d\x7dY\x7b\x7b endif \x7d\x7d".data

/-- Template text `A\x7b\x7bnope foo\x7d\x7dB\x7b\x7bnope foo\x7d\x7dC` with an
    unregistered tag occurring twice. -/
def tplNope : Str := "A\x7b\x7bnope foo\x7d\x7dB\x7b\x7bnope foo\x7d\x7dC".data

/-- The tree the parser produces for `tplNope`: the unknown tags pass
    through as complete-tag literals. -/
def nodeNope : TemplateNode :=
  .composite [.stringContent "A".data,
    .stringContent "\x7b\x7bnope foo\x7d\x7d".data,
    .stringContent "B".data,
    .stringContent "\x7b\x7bnope foo\x7d\x7d".data,
    .stringContent "C".data]

-- fixtures for the ForEach claims

/-- An extension function reading `name` from the current scope chain
    (registered through the `register_function` mechanism). -/
def getnameFunc : TemplateFunc := fun _ _ ctx _ =>
  some ((ctx.get_string "name".data).getD [])

/-- An extension function reading `extra` from the current scope chain,
    with a marker default. -/
def getextraFunc : TemplateFunc := fun _ _ ctx _ =>
  some ((ctx.get_string "extra".data).getD "MISSING".data)

def regGet : Registry := [("getname".data, getnameFunc), ("getextra".data, getextraFunc)]

/-- A three-record sequence, each record a mapping with a `name` field. -/
def itemsVal : Value :=
  .vSeq [.vMap [(.vStr "name".data, .vStr "a".data)],
         .vMap [(.vStr "name".data, .vStr "b".data)],
         .vMap [(.vStr "name".data, .vStr "c".data)]]

/-- One record carrying a scalar `name` field and a non-scalar `extra`
    field. -/
def mixedItems : Value :=
  .vSeq [.vMap [(.vStr "name".data, .vStr "a".data),
                (.vStr "extra".data, .vSeq [.vStr "zz".data])]]

/-- A foreach block whose body calls the `getname` extension. -/
def feNode : TemplateNode :=
  .forEachBlock "items".data "x".data (.composite [.func "getname".data [] none])

/-- A foreach block whose body calls `getname` then `getextra`. -/
def feNodeMixed : TemplateNode :=
  .forEachBlock "items".data "x".data
    (.composite [.func "getname".data [] none, .func "getextra".data [] none])

/-- A scope holding the three-record sequence in its own structured
    data. -/
def ctxLocal : TemplateContext := .mk [] [] [("items".data, itemsVal)] none

/-- A child scope of `ctxLocal` with no structured data of its own. -/
def ctxChild : TemplateContext := .mk [] [] [] (some ctxLocal)

/-- A scope holding the mixed-field sequence locally. -/
def ctxMixed : TemplateContext := .mk [] [] [("items".data, mixedItems)] none

/-- A scope whose `items` entry is not a sequence. -/
def ctxNonSeq : TemplateContext := .mk [] [] [("items".data, .vStr "x".data)] none

/-- A scope holding an empty sequence under `items`. -/
def ctxEmptySeq : TemplateContext := .mk [] [] [("items".data, .vSeq [])] none

/-- The ancestor-searching structured-data lookup described by the
    specification (§4.3: sequence lookup "follows the same
    ancestor-search rule" as string lookup).  Modelled from the spec's
    words, for comparison with the code's local-only lookup. -/
def lookup_sequence_spec : TemplateContext → Str → Option Value
  | .mk _ _ json parent, key =>
    match lookupAssoc json key with
    | some v => some v
    | none =>
      match parent with
      | some p => lookup_sequence_spec p key
      | none => none

-- fixtures for the layout claims

/-- A one-layout filesystem: `default` with empty front matter and body `X`. -/
def fsOk : List (Str × (FrontMatter × Str)) := [("default".data, ([], "X".data))]

/-- A filesystem whose layout `a` declares itself as its own parent. -/
def fsCyc : List (Str × (FrontMatter × Str)) :=
  [("a".data, ([("layout".data, "a".data)], "B".data))]

/-- The layout node `get_layout` builds for `default` from `fsOk`. -/
def defLayoutNode : TemplateNode :=
  .layout "default".data [] (.composite [.stringContent "X".data]) none

/-- The build state after resolving `default` from `fsOk` once. -/
def stAfter : LayoutSt := ⟨[("default".data, defLayoutNode)], ["default".data]⟩

/-- An opening `\x7b\x7b` at index `d` with no closing `\x7d\x7d` at `d`
    or anywhere after it. -/
def danglingAt (s : Str) (d : Nat) : Prop :=
  openBB <+: s.drop d ∧ ∀ j, d ≤ j → ¬ closeBB <+: s.drop j

-- ========== Supporting lemmas ==========

theorem lookupAssoc_insert {α : Type} (k : Str) (v : α) (m : List (Str × α)) :
    lookupAssoc (insertAssoc k v m) k = some v := by
  simp [insertAssoc, lookupAssoc]

theorem Res.bind_eq_ok {α β : Type} {x : Res α} {f : α → Res β} {b : β} :
    Res.bind x f = .ok b ↔ ∃ a, x = .ok a ∧ f a = .ok b := by
  cases x <;> simp [Res.bind]

-- ========== Claim theorems ==========

/-- C1: the canonical nested-if template
    `\x7b\x7bif A\x7d\x7d\x7b\x7bif B\x7d\x7dX\x7b\x7bendif\x7d\x7dY\x7b\x7bendif\x7d\x7d`
    does not parse to a tree that could render `XY`: the parser panics on
    it.  With the end tags written without inner spaces the block-content
    search for the spaced pattern `\x7b\x7b endif \x7d\x7d` fails and the
    out-of-bounds slice in `parse_block_content` fires; with the spaced
    spelling, the nearest-match search hands the outer `if` the truncated
    inner text `\x7b\x7bif B\x7d\x7dX`, whose recursive parse then panics
    for the same reason.  (Fuel is the input length plus one, which the
    sufficiency lemma below shows is enough.) -/
theorem C1_nested_if_never_renders_XY :
    parse_control_blocks defaultFuncNames (tplNestedIf.length + 1) tplNestedIf = .err ∧
    parse_control_blocks defaultFuncNames (tplNestedIfSpaced.length + 1)
      tplNestedIfSpaced = .err :=
  ⟨rfl, rfl⟩

/-- C2: on a layout that names itself as its own parent, `get_layout`
    never completes for any recursion budget — the cache is only filled
    after the recursive parent resolution, so the self-reference recurses
    unboundedly instead of being detected and reported. -/
theorem C2_layout_cycle_diverges :
    ∀ (fuel : Nat) (reads : List Str),
      get_layout [] fsCyc fuel ⟨[], reads⟩ "a".data = .fuelOut := by
  intro fuel
  induction fuel with
  | zero => intro reads; rfl
  | succ n ih =>
    intro reads
    have h := ih (reads ++ ["a".data])
    have step : ∃ K, get_layout [] fsCyc (n + 1) ⟨[], reads⟩ "a".data =
        Res.bind (Res.map
          (fun (p : TemplateNode × LayoutSt) =>
            ((some p.1, p.2) : Option TemplateNode × LayoutSt))
          (get_layout [] fsCyc n ⟨[], reads ++ ["a".data]⟩ "a".data)) K := ⟨_, rfl⟩
    obtain ⟨K, hK⟩ := step
    rw [hK, h]
    rfl

/-- C3: an `IfBlock` renders its true branch exactly when the condition
    key resolves to some string anywhere in the scope chain, otherwise
    the false branch when present, otherwise the empty string; moreover,
    end to end, `\x7b\x7b if X \x7d\x7dA\x7b\x7b else \x7d\x7dB\x7b\x7b endif \x7d\x7d`
    renders `A` when `X` is bound (here: to the empty string, two scopes
    up the chain) and `B` when it is unbound, and without an `else`
    clause an unbound `X` renders the empty string. -/
theorem C3_ifblock_truthiness :
    (∀ (funcs : Registry) (fuel : Nat) (condition : Str) (tb : TemplateNode)
        (fb : Option TemplateNode) (ctx : TemplateContext) (g : GlobalContext),
      TemplateNode.render funcs (fuel + 1) (.ifBlock condition tb fb) ctx g =
        match ctx.get_string condition with
        | some _ => TemplateNode.render funcs fuel tb ctx g
        | none =>
          match fb with
          | some f => TemplateNode.render funcs fuel f ctx g
          | none => some []) ∧
    parse_control_blocks [] 50 tplIfElse = .ok nodeIfElse ∧
    TemplateNode.render [] 10 nodeIfElse ctxX g0 = some "A".data ∧
    TemplateNode.render [] 10 nodeIfElse ctxNoX g0 = some "B".data ∧
    parse_control_blocks [] 50 tplIfNoElse = .ok nodeIfNoElse ∧
    TemplateNode.render [] 10 nodeIfNoElse ctxNoX g0 = some [] :=
  ⟨fun _ _ _ _ _ _ _ => rfl, rfl, rfl, rfl, rfl, rfl⟩

/-- C4 counterexample: with the three-record `items` sequence bound in
    the parent scope only, the ancestor-searching lookup the claim
    describes finds it from the child scope, yet rendering the foreach
    block in the child scope yields the empty string instead of one body
    rendering per record (which the very same block produces — `abc` —
    when the data sits in the current scope). -/
theorem C4_foreach_ignores_ancestors :
    lookup_sequence_spec ctxChild "items".data = some itemsVal ∧
    TemplateNode.render regGet 10 feNode ctxChild g0 = some [] ∧
    TemplateNode.render regGet 10 feNode ctxLocal g0 = some "abc".data ∧
    ([] : Str) ≠ "abc".data :=
  ⟨rfl, rfl, rfl, by decide⟩

/-- C4 (amended): a `ForEachBlock` looks the key up in the current
    scope's own structured data only (ancestor scopes are not searched);
    when that yields a sequence, each record renders the body once in a
    fresh child context seeded from the record's string-keyed,
    string-valued fields (other fields ignored), and the results
    concatenate in sequence order; a missing key or a non-sequence value
    yields the empty string.  Concretely: three records with `name`
    fields render `abc` in order; a record's non-scalar `extra` field is
    not seeded; a non-sequence value, an empty sequence and a missing
    key all render empty. -/
theorem C4_foreach_local_lookup :
    (∀ (funcs : Registry) (fuel : Nat) (key item_name : Str) (body : TemplateNode)
        (ctx : TemplateContext) (g : GlobalContext),
      TemplateNode.render funcs (fuel + 1) (.forEachBlock key item_name body) ctx g =
        match lookupAssoc ctx.json_data key with
        | some (Value.vSeq items) =>
          (mapOpt (fun item =>
            TemplateNode.render funcs fuel body
              (.mk (seed_item_strings item) [] [] (some ctx)) g) items).map joinAll
        | _ => some []) ∧
    TemplateNode.render regGet 10 feNode ctxLocal g0 = some "abc".data ∧
    TemplateNode.render regGet 10 feNodeMixed ctxMixed g0 = some "aMISSING".data ∧
    TemplateNode.render regGet 10 feNode ctxNonSeq g0 = some [] ∧
    TemplateNode.render regGet 10 feNode ctxEmptySeq g0 = some [] ∧
    TemplateNode.render regGet 10 feNode ctxNoX g0 = some [] :=
  ⟨fun _ _ _ _ _ _ _ => rfl, rfl, rfl, rfl, rfl, rfl⟩

/-- C7: `get_layout` is memoized by name: after any successful call,
    the returned layout is in the cache under its name, and calling
    again with the resulting state returns the structurally identical
    node and the unchanged state — in particular no further file read is
    logged and no parse happens, for any remaining fuel. -/
theorem C7_get_layout_memoized (fns : List Str)
    (fsys : List (Str × (FrontMatter × Str))) (fuel fuel2 : Nat)
    (st st' : LayoutSt) (name : Str) (l : TemplateNode)
    (h : get_layout fns fsys fuel st name = .ok (l, st')) :
    lookupAssoc st'.cache name = some l ∧
    get_layout fns fsys (fuel2 + 1) st' name = .ok (l, st') := by
  have hc : lookupAssoc st'.cache name = some l := by
    cases fuel with
    | zero => exact absurd h (by simp [get_layout])
    | succ f =>
      simp only [get_layout] at h
      split at h
      · rename_i l0 heq
        obtain ⟨rfl, rfl⟩ : l0 = l ∧ st = st' := by
          cases h; exact ⟨rfl, rfl⟩
        exact heq
      · split at h
        · exact absurd h (by simp)
        · rename_i fmhtml heq2
          rw [Res.bind_eq_ok] at h
          obtain ⟨pr, hX, hK⟩ := h
          rw [Res.bind_eq_ok] at hK
          obtain ⟨cn, hp, hok⟩ := hK
          cases hok
          exact lookupAssoc_insert _ _ _
  refine ⟨hc, ?_⟩
  simp only [get_layout, hc]

/-- C7 witness: resolving `default` from the one-layout filesystem with
    an empty cache succeeds after exactly one file read, and the second
    call returns the identical node and state. -/
theorem C7_witness :
    lookupAssoc stAfter.cache "default".data = some defLayoutNode ∧
    get_layout [] fsOk 5 stAfter "default".data = .ok (defLayoutNode, stAfter) :=
  C7_get_layout_memoized [] fsOk 3 4 ⟨[], []⟩ stAfter "default".data defLayoutNode rfl

/-- C8 counterexample: the template `A\x7b\x7bnope foo\x7d\x7dB\x7b\x7bnope foo\x7d\x7dC`
    with `nope` unregistered parses with the two unknown tags kept as
    complete-tag literals, and renders back the full source text — not
    the text with each tag replaced by the bare word `nope` as the claim
    states. -/
theorem C8_renders_full_tag_not_name :
    parse_control_blocks defaultFuncNames 100 tplNope = .ok nodeNope ∧
    TemplateNode.render [] 10 nodeNope ctxNoX g0 = some tplNope ∧
    tplNope ≠ "AnopeBnopeC".data :=
  ⟨rfl, rfl, by decide⟩

/-- C8 (amended): a template containing `\x7b\x7bnope foo\x7d\x7d` with
    `nope` not a registered function name parses without panicking (the
    unknown tag becomes a complete-tag literal) and renders the full tag
    text verbatim wherever it occurs, for every registry, scope and
    build state; a `Func` node with an unregistered name would render
    the bare name, but the parser never builds such a node. -/
theorem C8_unknown_tag_passthrough :
    parse_control_blocks defaultFuncNames 100 tplNope = .ok nodeNope ∧
    (∀ (funcs : Registry) (fuel : Nat) (ctx : TemplateContext) (g : GlobalContext),
      TemplateNode.render funcs (fuel + 2) nodeNope ctx g = some tplNope) ∧
    (∀ (funcs : Registry) (fuel : Nat) (ctx : TemplateContext) (g : GlobalContext)
        (args : List Str) (blk : Option Str),
      lookupAssoc funcs "nope".data = none →
      TemplateNode.render funcs (fuel + 1) (.func "nope".data args blk) ctx g =
        some "nope".data) :=
  ⟨rfl, fun _ _ _ _ => rfl,
   fun _ _ _ _ _ _ h => by simp only [TemplateNode.render, h]⟩

/-- C8 witness: the pass-through rendering at the empty registry, and
    the `Func`-arm fallback with the empty registry. -/
theorem C8_witness :
    TemplateNode.render [] 7 nodeNope ctxNoX g0 = some tplNope ∧
    TemplateNode.render [] 3 (.func "nope".data ["foo".data] none) ctxNoX g0 =
      some "nope".data :=
  ⟨C8_unknown_tag_passthrough.2.1 [] 5 ctxNoX g0,
   C8_unknown_tag_passthrough.2.2 [] 2 ctxNoX g0 ["foo".data] none rfl⟩

-- ========== C5: URL rewriting ==========

theorem has_protocol_iff (url : Str) :
    has_protocol url = true ↔
      ∃ pre rest, url = pre ++ ':' :: rest ∧ pre ≠ [] ∧ pre.all Char.isAlpha = true := by
  constructor
  · intro h
    unfold has_protocol at h
    split at h
    · rename_i colonPos hf
      split at h
      · rename_i hpos
        obtain ⟨hlt, hcolon, -⟩ := List.findIdx?_eq_some_iff_getElem.mp hf
        refine ⟨url.take colonPos, url.drop (colonPos + 1), ?_, ?_, h⟩
        · conv_lhs => rw [← List.take_append_drop colonPos url]
          congr 1
          rw [List.drop_eq_getElem_cons hlt]
          simp only [decide_eq_true_eq] at hcolon
          rw [hcolon]
        · intro hnil
          have := congrArg List.length hnil
          rw [List.length_take] at this
          simp only [List.length_nil] at this
          omega
      · exact absurd h (by simp)
    · exact absurd h (by simp)
  · rintro ⟨pre, rest, rfl, hne, halpha⟩
    have hfind : (pre ++ ':' :: rest).findIdx? (· = ':') = some pre.length := by
      rw [List.findIdx?_eq_some_iff_getElem]
      refine ⟨by simp, ?_, ?_⟩
      · rw [List.getElem_append_right (Nat.le_refl _)]
        simp
      · intro j hj
        rw [List.getElem_append_left hj]
        have hmem : pre[j] ∈ pre := List.getElem_mem _
        have halphaj := List.all_eq_true.mp halpha _ hmem
        simp only [decide_eq_true_eq]
        intro hcontra
        rw [hcontra] at halphaj
        exact absurd halphaj (by decide)
    unfold has_protocol
    rw [hfind]
    simp only []
    have hpos : pre.length > 0 := List.length_pos.mpr hne
    rw [if_pos hpos, List.take_left]
    exact halpha

theorem head?_trimStart_ne_slash (s : Str) : (trimStartSlashes s).head? ≠ some '/' := by
  have := List.head?_dropWhile_not (· = '/') s
  unfold trimStartSlashes
  intro hcontra
  rw [hcontra] at this
  simp at this

theorem getLast?_trimEnd_ne_slash (s : Str) : (trimEndSlashes s).getLast? ≠ some '/' := by
  unfold trimEndSlashes
  rw [List.getLast?_reverse]
  have := List.head?_dropWhile_not (· = '/') s.reverse
  intro hcontra
  rw [hcontra] at this
  simp at this

/-- C5: `relative_url` is the identity on inputs with a scheme prefix or
    a leading `#`; `has_protocol` holds exactly when a non-empty
    all-alphabetic token precedes the first `:`; every other input joins
    the configured base with exactly one `/` — the base's trailing
    slashes and the input's leading slashes are all stripped, so the
    piece before the separator never ends in `/` and the piece after it
    never starts with `/`, regardless of how many slashes either side
    carried; the three spec examples evaluate as stated. -/
theorem C5_relative_url_rewrite :
    (∀ (g : GlobalContext) (path : Str), has_protocol path = true →
      relative_url g path = some path) ∧
    (∀ (g : GlobalContext) (path : Str), path.take 1 = ['#'] →
      relative_url g path = some path) ∧
    (∀ url : Str, has_protocol url = true ↔
      ∃ pre rest, url = pre ++ ':' :: rest ∧ pre ≠ [] ∧ pre.all Char.isAlpha = true) ∧
    (∀ (g : GlobalContext) (path base : Str),
      has_protocol path = false → path.take 1 ≠ ['#'] →
      lookupAssoc g.site_strings "site.url".data = some base →
      relative_url g path = some (trimEndSlashes base ++ '/' :: trimStartSlashes path) ∧
      (trimEndSlashes base).getLast? ≠ some '/' ∧
      (trimStartSlashes path).head? ≠ some '/') ∧
    (∀ s : Str, trimEndSlashes (s ++ ['/']) = trimEndSlashes s ∧
      trimStartSlashes ('/' :: s) = trimStartSlashes s) ∧
    relative_url gSite "about.html".data = some "https://x.test/about.html".data ∧
    relative_url gSite "https://ext.test/p".data = some "https://ext.test/p".data ∧
    relative_url gSite "#section".data = some "#section".data := by
  refine ⟨?_, ?_, has_protocol_iff, ?_, ?_, rfl, rfl, rfl⟩
  · intro g path h
    simp [relative_url, h]
  · intro g path h
    simp [relative_url, h]
  · intro g path base hp hh hl
    unfold relative_url
    rw [if_neg (by simp [hp, hh]), hl]
    exact ⟨rfl, getLast?_trimEnd_ne_slash base, head?_trimStart_ne_slash path⟩
  · intro s
    constructor
    · simp [trimEndSlashes]
    · simp [trimStartSlashes]

/-- C5 witness: the join rule applied to `about.html` under base
    `https://x.test`, and the identity rule applied to an absolute URL. -/
theorem C5_witness :
    relative_url gSite "about.html".data =
      some (trimEndSlashes "https://x.test".data ++ '/' ::
        trimStartSlashes "about.html".data) ∧
    relative_url gSite "https://ext.test/p".data = some "https://ext.test/p".data :=
  ⟨(C5_relative_url_rewrite.2.2.2.1 gSite "about.html".data "https://x.test".data
      (by decide) (by decide) rfl).1,
   C5_relative_url_rewrite.1 gSite "https://ext.test/p".data (by decide)⟩

-- ========== C6: the four interpolation spellings ==========

theorem replaceAllF_nil (fuel : Nat) (p v : Str) : replaceAllF fuel [] p v = [] := by
  cases fuel <;> rfl

theorem replaceAll_self (p v : Str) (hp : p ≠ []) : replaceAll p p v = v := by
  cases p with
  | nil => exact absurd rfl hp
  | cons c rest =>
    show replaceAllF (c :: rest).length (c :: rest) (c :: rest) v = v
    rw [List.length_cons]
    show (if (c :: rest) ≠ [] ∧ (c :: rest).isPrefixOf (c :: rest) then
        v ++ replaceAllF rest.length ((c :: rest).drop (c :: rest).length) (c :: rest) v
      else c :: replaceAllF rest.length rest (c :: rest) v) = v
    rw [if_pos ⟨hp, List.isPrefixOf_iff_prefix.mpr (List.prefix_refl _)⟩]
    rw [List.drop_length, replaceAllF_nil, List.append_nil]

theorem replaceAllF_not_mem {p : Str} {ch : Char} (hch : ch ∈ p) (v : Str) :
    ∀ (fuel : Nat) (s : Str), ch ∉ s → replaceAllF fuel s p v = s := by
  intro fuel
  induction fuel with
  | zero => intro s _; rfl
  | succ n ih =>
    intro s hs
    cases s with
    | nil => rfl
    | cons c rest =>
      show (if p ≠ [] ∧ p.isPrefixOf (c :: rest) then
          v ++ replaceAllF n ((c :: rest).drop p.length) p v
        else c :: replaceAllF n rest p v) = c :: rest
      rw [if_neg]
      · rw [ih rest (fun hmem => hs (List.mem_cons_of_mem c hmem))]
      · rintro ⟨-, hpre⟩
        exact hs ((List.isPrefixOf_iff_prefix.mp hpre).subset hch)

theorem replaceAllF_long {p : Str} (v : Str) :
    ∀ (fuel : Nat) (s : Str), s.length < p.length → replaceAllF fuel s p v = s := by
  intro fuel
  induction fuel with
  | zero => intro s _; rfl
  | succ n ih =>
    intro s hs
    cases s with
    | nil => rfl
    | cons c rest =>
      show (if p ≠ [] ∧ p.isPrefixOf (c :: rest) then
          v ++ replaceAllF n ((c :: rest).drop p.length) p v
        else c :: replaceAllF n rest p v) = c :: rest
      rw [if_neg]
      · rw [ih rest (by simp at hs ⊢; omega)]
      · rintro ⟨-, hpre⟩
        exact absurd (List.isPrefixOf_iff_prefix.mp hpre).length_le (by omega)

theorem replaceAllF_len_eq_ne {p : Str} (v : Str) (fuel : Nat) (s : Str)
    (hlen : p.length = s.length) (hne : p ≠ s) : replaceAllF fuel s p v = s := by
  cases fuel with
  | zero => rfl
  | succ n =>
    cases s with
    | nil => rfl
    | cons c rest =>
      show (if p ≠ [] ∧ p.isPrefixOf (c :: rest) then
          v ++ replaceAllF n ((c :: rest).drop p.length) p v
        else c :: replaceAllF n rest p v) = c :: rest
      rw [if_neg]
      · rw [replaceAllF_long v n rest (by simp at hlen ⊢; omega)]
      · rintro ⟨-, hpre⟩
        exact hne ((List.isPrefixOf_iff_prefix.mp hpre).eq_of_length hlen)

theorem replaceAll_long {p : Str} (v : Str) (s : Str) (h : s.length < p.length) :
    replaceAll s p v = s := replaceAllF_long v s.length s h

theorem replaceAll_len_eq_ne {p : Str} (v : Str) (s : Str)
    (hlen : p.length = s.length) (hne : p ≠ s) : replaceAll s p v = s :=
  replaceAllF_len_eq_ne v s.length s hlen hne

theorem replaceAll_not_mem {p : Str} {ch : Char} (hch : ch ∈ p) (v s : Str)
    (hs : ch ∉ s) : replaceAll s p v = s := replaceAllF_not_mem hch v s.length s hs

/-- C6 counterexample: with the value `a\x7b\x7bkey\x7d\x7db` — which itself
    contains a spelling of the key — the single-brace spaced site
    `\x7b key \x7d` is not replaced by the value: the later `replace`
    passes rewrite the inserted text again, so the claim's universal
    quantification over values fails. -/
theorem C6_value_with_braces :
    perform_substitutions_str "\x7b key \x7d".data "key".data "a\x7b\x7bkey\x7d\x7db".data ≠
      "a\x7b\x7bkey\x7d\x7db".data := by decide

/-- C6 (amended): for every key and every value containing no `\x7b`
    character, the substitution pass replaces each of the four spellings
    `\x7b\x7bk\x7d\x7d`, `\x7bk\x7d`, `\x7b\x7b k \x7d\x7d`, `\x7b k \x7d`
    with exactly the value — the four spellings are equivalent
    substitution sites. -/
theorem C6_four_spellings (k v : Str) (hv : '{' ∉ v) :
    perform_substitutions_str (['{', '{', ' '] ++ k ++ [' ', '}', '}']) k v = v ∧
    perform_substitutions_str (['{', ' '] ++ k ++ [' ', '}']) k v = v ∧
    perform_substitutions_str (['{', '{'] ++ k ++ ['}', '}']) k v = v ∧
    perform_substitutions_str (['{'] ++ k ++ ['}']) k v = v := by
  have hmem2 : '{' ∈ ('{' :: (' ' :: k ++ [' ']) ++ ['}'] : Str) := by simp
  have hmem3 : '{' ∈ ('{' :: '{' :: k ++ ['}', '}'] : Str) := by simp
  have hmem4 : '{' ∈ ('{' :: k ++ ['}'] : Str) := by simp
  refine ⟨?_, ?_, ?_, ?_⟩
  · show replaceAll (replaceAll (replaceAll (replaceAll
        (['{', '{', ' '] ++ k ++ [' ', '}', '}'])
        ('{' :: '{' :: (' ' :: k ++ [' ']) ++ ['}', '}']) v)
        ('{' :: (' ' :: k ++ [' ']) ++ ['}']) v)
        ('{' :: '{' :: k ++ ['}', '}']) v)
        ('{' :: k ++ ['}']) v = v
    have ht : (['{', '{', ' '] ++ k ++ [' ', '}', '}'] : Str) =
        '{' :: '{' :: (' ' :: k ++ [' ']) ++ ['}', '}'] := by simp
    rw [ht, replaceAll_self ('{' :: '{' :: (' ' :: k ++ [' ']) ++ ['}', '}']) v (by simp),
      replaceAll_not_mem hmem2 v v hv,
      replaceAll_not_mem hmem3 v v hv,
      replaceAll_not_mem hmem4 v v hv]
  · show replaceAll (replaceAll (replaceAll (replaceAll
        (['{', ' '] ++ k ++ [' ', '}'])
        ('{' :: '{' :: (' ' :: k ++ [' ']) ++ ['}', '}']) v)
        ('{' :: (' ' :: k ++ [' ']) ++ ['}']) v)
        ('{' :: '{' :: k ++ ['}', '}']) v)
        ('{' :: k ++ ['}']) v = v
    have ht : (['{', ' '] ++ k ++ [' ', '}'] : Str) =
        '{' :: (' ' :: k ++ [' ']) ++ ['}'] := by simp
    have e1 := replaceAll_long (p := '{' :: '{' :: (' ' :: k ++ [' ']) ++ ['}', '}']) v
      (['{', ' '] ++ k ++ [' ', '}']) (by simp)
    rw [e1, ht, replaceAll_self ('{' :: (' ' :: k ++ [' ']) ++ ['}']) v (by simp),
      replaceAll_not_mem hmem3 v v hv,
      replaceAll_not_mem hmem4 v v hv]
  · show replaceAll (replaceAll (replaceAll (replaceAll
        (['{', '{'] ++ k ++ ['}', '}'])
        ('{' :: '{' :: (' ' :: k ++ [' ']) ++ ['}', '}']) v)
        ('{' :: (' ' :: k ++ [' ']) ++ ['}']) v)
        ('{' :: '{' :: k ++ ['}', '}']) v)
        ('{' :: k ++ ['}']) v = v
    have ht : (['{', '{'] ++ k ++ ['}', '}'] : Str) = '{' :: '{' :: k ++ ['}', '}'] := by simp
    have hne : ('{' :: (' ' :: k ++ [' ']) ++ ['}'] : Str) ≠ '{' :: '{' :: k ++ ['}', '}'] := by
      intro heq
      rw [List.cons_append] at heq
      injection heq with h1 h2
      injection h2 with h3 h4
      exact absurd h3 (by decide)
    have e1 := replaceAll_long (p := '{' :: '{' :: (' ' :: k ++ [' ']) ++ ['}', '}']) v
      (['{', '{'] ++ k ++ ['}', '}']) (by simp)
    have e2 := replaceAll_len_eq_ne (p := '{' :: (' ' :: k ++ [' ']) ++ ['}']) v
      ('{' :: '{' :: k ++ ['}', '}']) (by simp) hne
    rw [e1, ht, e2, replaceAll_self ('{' :: '{' :: k ++ ['}', '}']) v (by simp),
      replaceAll_not_mem hmem4 v v hv]
  · show replaceAll (replaceAll (replaceAll (replaceAll
        (['{'] ++ k ++ ['}'])
        ('{' :: '{' :: (' ' :: k ++ [' ']) ++ ['}', '}']) v)
        ('{' :: (' ' :: k ++ [' ']) ++ ['}']) v)
        ('{' :: '{' :: k ++ ['}', '}']) v)
        ('{' :: k ++ ['}']) v = v
    have ht : (['{'] ++ k ++ ['}'] : Str) = '{' :: k ++ ['}'] := by simp
    have e1 := replaceAll_long (p := '{' :: '{' :: (' ' :: k ++ [' ']) ++ ['}', '}']) v
      (['{'] ++ k ++ ['}']) (by simp)
    have e2 := replaceAll_long (p := '{' :: (' ' :: k ++ [' ']) ++ ['}']) v
      (['{'] ++ k ++ ['}']) (by simp)
    have e3 := replaceAll_long (p := '{' :: '{' :: k ++ ['}', '}']) v
      (['{'] ++ k ++ ['}']) (by simp)
    rw [e1, e2, e3, ht, replaceAll_self ('{' :: k ++ ['}']) v (by simp)]

/-- C6 witness: the four spellings of `key` all substitute to `VAL`. -/
theorem C6_witness :
    perform_substitutions_str "\x7b\x7b key \x7d\x7d".data "key".data "VAL".data =
      "VAL".data ∧
    perform_substitutions_str "\x7b key \x7d".data "key".data "VAL".data = "VAL".data ∧
    perform_substitutions_str "\x7b\x7bkey\x7d\x7d".data "key".data "VAL".data =
      "VAL".data ∧
    perform_substitutions_str "\x7bkey\x7d".data "key".data "VAL".data = "VAL".data :=
  C6_four_spellings "key".data "VAL".data (by decide)

-- ========== C10: relative-url panics ==========

/-- C10: the registered `relative-url` closure panics on an empty
    argument list (the `unwrap` on `args.get(0)`); `relative_url` panics
    when the input has no scheme prefix and no leading `#` and the site
    map lacks `site.url`; and whenever an argument is supplied and
    `site.url` is configured, the call does not panic. -/
theorem C10_relative_url_panics :
    (∀ (block : Option Str) (ctx : TemplateContext) (g : GlobalContext),
      relative_url_func [] block ctx g = none) ∧
    (∀ (g : GlobalContext) (path : Str),
      has_protocol path = false → path.take 1 ≠ ['#'] →
      lookupAssoc g.site_strings "site.url".data = none →
      relative_url g path = none) ∧
    (∀ (args : List Str) (a : Str) (block : Option Str) (ctx : TemplateContext)
        (g : GlobalContext) (base : Str),
      args.get? 0 = some a →
      lookupAssoc g.site_strings "site.url".data = some base →
      relative_url_func args block ctx g ≠ none) := by
  refine ⟨fun _ _ _ => rfl, ?_, ?_⟩
  · intro g path hp hh hl
    unfold relative_url
    rw [if_neg (by simp [hp, hh]), hl]
  · intro args a block ctx g base ha hl
    unfold relative_url_func
    rw [ha]
    show relative_url g a ≠ none
    unfold relative_url
    split
    · simp
    · rw [hl]; simp

/-- C10 witness: the empty-argument panic, the missing `site.url` panic
    on `about.html`, and the non-panic under the precondition. -/
theorem C10_witness :
    relative_url_func [] none ctxNoX g0 = none ∧
    relative_url g0 "about.html".data = none ∧
    relative_url_func ["about.html".data] none ctxNoX gSite ≠ none :=
  ⟨C10_relative_url_panics.1 none ctxNoX g0,
   C10_relative_url_panics.2.1 g0 "about.html".data (by decide) (by decide) rfl,
   C10_relative_url_panics.2.2 ["about.html".data] "about.html".data none ctxNoX gSite
     "https://x.test".data rfl rfl⟩

-- ========== C9: the parser panics on an unterminated opening delimiter ==========

theorem findSub_prefix_of_some : ∀ {s pat : Str} {i : Nat},
    findSub s pat = some i → pat <+: s.drop i := by
  intro s
  induction s with
  | nil =>
    intro pat i h
    unfold findSub at h
    split at h
    · rename_i hp
      cases h
      simp [hp]
    · exact absurd h (by simp)
  | cons c rest ih =>
    intro pat i h
    unfold findSub at h
    split at h
    · rename_i hpre
      cases h
      simpa using List.isPrefixOf_iff_prefix.mp hpre
    · rw [Option.map_eq_some'] at h
      obtain ⟨i', hi', rfl⟩ := h
      simpa using ih hi'

theorem findSub_some_le : ∀ {s pat : Str} {i : Nat},
    findSub s pat = some i → i + pat.length ≤ s.length := by
  intro s
  induction s with
  | nil =>
    intro pat i h
    unfold findSub at h
    split at h
    · rename_i hp
      cases h
      simp [hp]
    · exact absurd h (by simp)
  | cons c rest ih =>
    intro pat i h
    unfold findSub at h
    split at h
    · rename_i hpre
      cases h
      simpa using (List.isPrefixOf_iff_prefix.mp hpre).length_le
    · rw [Option.map_eq_some'] at h
      obtain ⟨i', hi', rfl⟩ := h
      have := ih hi'
      simp
      omega

theorem findSub_none_no_occurrence : ∀ {s pat : Str},
    findSub s pat = none → ∀ j, ¬ pat <+: s.drop j := by
  intro s
  induction s with
  | nil =>
    intro pat h j
    unfold findSub at h
    split at h
    · exact absurd h (by simp)
    · rename_i hp
      rw [List.drop_nil, List.prefix_nil]
      exact hp
  | cons c rest ih =>
    intro pat h j
    unfold findSub at h
    split at h
    · exact absurd h (by simp)
    · rename_i hpre
      rw [Option.map_eq_none'] at h
      cases j with
      | zero =>
        rw [List.drop_zero]
        intro hcontra
        exact hpre (List.isPrefixOf_iff_prefix.mpr hcontra)
      | succ j' =>
        rw [List.drop_succ_cons]
        exact ih h j'

theorem end_pattern_length (tag : Str) : (end_pattern tag).length = tag.length + 6 := by
  show (openBB ++ ' ' :: tag ++ ' ' :: closeBB).length = tag.length + 6
  simp [openBB, closeBB]

theorem closeBB_at_endPat {tag l : Str} (h : end_pattern tag <+: l) :
    closeBB <+: l.drop (tag.length + 4) := by
  obtain ⟨u, hu⟩ := h
  have hshape : end_pattern tag ++ u =
      ('{' :: '{' :: ' ' :: tag) ++ (' ' :: (closeBB ++ u)) := by
    show (openBB ++ ' ' :: tag ++ ' ' :: closeBB) ++ u = _
    simp [openBB]
  rw [← hu, hshape]
  have hlen : tag.length + 4 = ('{' :: '{' :: ' ' :: tag).length + 1 := by simp
  rw [hlen]
  rw [show ('{' :: '{' :: ' ' :: tag).length + 1 = ('{' :: '{' :: ' ' :: tag).length + 1 from rfl]
  rw [← List.drop_drop]
  rw [List.drop_left]
  exact ⟨u, rfl⟩

theorem not_openBB_after_closeBB {l : Str} {m : Nat} (h : closeBB <+: l.drop m) :
    ¬ openBB <+: l.drop (m + 1) := by
  obtain ⟨u, hu⟩ := h
  intro h2
  have hdrop : l.drop (m + 1) = '}' :: u := by
    rw [← List.drop_drop, ← hu]
    rfl
  rw [hdrop] at h2
  obtain ⟨w, hw⟩ := h2
  have := congrArg (·.head?) hw
  simp [openBB] at this

theorem danglingAt_drop {s : Str} {d k : Nat} (h : danglingAt s d) (hk : k ≤ d) :
    danglingAt (s.drop k) (d - k) := by
  obtain ⟨h1, h2⟩ := h
  constructor
  · rw [List.drop_drop, show k + (d - k) = d from by omega]
    exact h1
  · intro j hj
    rw [List.drop_drop]
    exact h2 (k + j) (by omega)

theorem parse_block_content_eq_some {content endTag inner rest2 : Str}
    (h : parse_block_content content endTag = some (inner, rest2)) :
    ∃ e, findSub content (end_pattern endTag) = some e ∧
      inner = content.take e ∧
      rest2 = content.drop (e + (end_pattern endTag).length) := by
  unfold parse_block_content at h
  split at h
  · rename_i e he
    cases h
    exact ⟨e, he, rfl, rfl⟩
  · exact absurd h (by simp)

theorem splitOnceSub_eq_some {s pat tc fc : Str}
    (h : splitOnceSub s pat = some (tc, fc)) :
    ∃ i, findSub s pat = some i ∧ tc = s.take i ∧ fc = s.drop (i + pat.length) := by
  unfold splitOnceSub at h
  split at h
  · rename_i i hi
    cases h
    exact ⟨i, hi, rfl, rfl⟩
  · exact absurd h (by simp)

theorem Res.bind_ne_fuelOut {α β : Type} {x : Res α} {f : α → Res β}
    (hx : x ≠ .fuelOut) (hf : ∀ a, f a ≠ .fuelOut) : x.bind f ≠ .fuelOut := by
  cases x with
  | ok a => exact hf a
  | err => simp [Res.bind]
  | fuelOut => exact absurd rfl hx

theorem Res.map_ne_fuelOut {α β : Type} {x : Res α} {f : α → β}
    (hx : x ≠ .fuelOut) : x.map f ≠ .fuelOut := by
  cases x with
  | ok a => simp [Res.map]
  | err => simp [Res.map]
  | fuelOut => exact absurd rfl hx

theorem openBB_len : openBB.length = 2 := rfl
theorem closeBB_len : closeBB.length = 2 := rfl

set_option maxHeartbeats 1000000 in
theorem parse_cbl_ne_fuelOut (fns : List Str) :
    ∀ (fuel : Nat) (remaining : Str), remaining.length < fuel →
      parse_control_blocks_list fns fuel remaining ≠ .fuelOut := by
  intro fuel
  induction fuel with
  | zero => intro remaining h; exact absurd h (by omega)
  | succ n ih =>
    intro remaining hlen
    simp only [parse_control_blocks_list]
    split
    · split <;> simp
    · rename_i openPos hopen
      split
      · simp
      · rename_i rel hclose
        have hb1 := findSub_some_le hopen
        rw [openBB_len] at hb1
        have hb2 := findSub_some_le hclose
        rw [closeBB_len, List.length_drop] at hb2
        have hrest : (remaining.drop (openPos + rel + 2)).length < n := by
          rw [List.length_drop]; omega
        split
        · -- [t1, t2]: if-arm or fallback
          split
          · -- t1 = "if"
            split
            · -- parse_block_content none: panic
              simp
            · -- some (inner, rest2)
              rename_i pr hpbc
              obtain ⟨e, he, hinner, hrest2⟩ := parse_block_content_eq_some hpbc
              have hee := findSub_some_le he
              rw [end_pattern_length, List.length_drop] at hee
              have hendif : ("endif".data).length = 5 := rfl
              rw [hendif] at hee
              subst hinner hrest2
              have helse : elsePattern.length = 10 := rfl
              cases hso : splitOnceSub (List.take e (remaining.drop (openPos + rel + 2)))
                  elsePattern with
              | none =>
                simp only [hso]
                refine Res.bind_ne_fuelOut (ih _ ?_) (fun tns => ?_)
                · rw [List.length_take, List.length_drop]
                  omega
                · refine Res.bind_ne_fuelOut (by simp) (fun fn => ?_)
                  refine Res.bind_ne_fuelOut (ih _ ?_) (fun rn => by simp)
                  rw [List.length_drop, List.length_drop]
                  omega
              | some ab =>
                obtain ⟨a, b⟩ := ab
                obtain ⟨i, hi, ha, hb⟩ := splitOnceSub_eq_some hso
                have hilen := findSub_some_le hi
                rw [helse, List.length_take, List.length_drop] at hilen
                simp only [hso]
                subst ha hb
                refine Res.bind_ne_fuelOut (ih _ ?_) (fun tns => ?_)
                · rw [List.length_take, List.length_take, List.length_drop]
                  omega
                · refine Res.bind_ne_fuelOut (Res.map_ne_fuelOut (ih _ ?_)) (fun fn => ?_)
                  · rw [helse, List.length_drop, List.length_take, List.length_drop]
                    omega
                  · refine Res.bind_ne_fuelOut (ih _ ?_) (fun rn => by simp)
                    rw [List.length_drop, List.length_drop]
                    omega
          · -- fallback
            refine Res.bind_ne_fuelOut (ih _ hrest) (fun a => by simp)
        · -- [t1]: else or fallback
          split
          · exact Res.bind_ne_fuelOut (ih _ hrest) (fun a => by simp)
          · exact Res.bind_ne_fuelOut (ih _ hrest) (fun a => by simp)
        · -- [t1,t2,t3,t4]: foreach or fallback
          split
          · split
            · simp
            · rename_i pr hpbc
              obtain ⟨e, he, hinner, hrest2⟩ := parse_block_content_eq_some hpbc
              have hee := findSub_some_le he
              rw [end_pattern_length, List.length_drop] at hee
              have hendfe : ("endforeach".data).length = 10 := rfl
              subst hinner hrest2
              refine Res.bind_ne_fuelOut (ih _ ?_) (fun a => ?_)
              · rw [List.length_take, List.length_drop]
                omega
              · refine Res.bind_ne_fuelOut (ih _ ?_) (fun b => by simp)
                rw [List.length_drop, List.length_drop]
                omega
          · exact Res.bind_ne_fuelOut (ih _ hrest) (fun a => by simp)
        · -- other shapes: fallback
          exact Res.bind_ne_fuelOut (ih _ hrest) (fun a => by simp)

theorem Res.bind_eq_err {α β : Type} {x : Res α} {f : α → Res β}
    (hx : x ≠ .fuelOut) (hf : ∀ a, f a = .err) : x.bind f = .err := by
  cases x with
  | ok a => exact hf a
  | err => rfl
  | fuelOut => exact absurd rfl hx

set_option maxHeartbeats 1000000 in
theorem parse_cbl_dangling_err (fns : List Str) :
    ∀ (fuel : Nat) (remaining : Str) (d : Nat), danglingAt remaining d →
      remaining.length < fuel → parse_control_blocks_list fns fuel remaining = .err := by
  intro fuel
  induction fuel with
  | zero => intro remaining d _ h; exact absurd h (by omega)
  | succ n ih =>
    intro remaining d hd hlen
    obtain ⟨hdpre, hdno⟩ := hd
    simp only [parse_control_blocks_list]
    split
    · rename_i hopen
      exact absurd hdpre (findSub_none_no_occurrence hopen d)
    · rename_i openPos hopen
      split
      · rfl
      · rename_i rel hclose
        have hcpre : closeBB <+: remaining.drop (openPos + rel) := by
          have := findSub_prefix_of_some hclose
          rwa [List.drop_drop] at this
        have hdgt : openPos + rel < d := by
          by_contra hcon
          exact hdno (openPos + rel) (by omega) hcpre
        have hdne : d ≠ openPos + rel + 1 := by
          intro hcontra
          exact not_openBB_after_closeBB hcpre (hcontra ▸ hdpre)
        have hdge : openPos + rel + 2 ≤ d := by omega
        have hdrest : danglingAt (remaining.drop (openPos + rel + 2))
            (d - (openPos + rel + 2)) := danglingAt_drop ⟨hdpre, hdno⟩ hdge
        have hb1 := findSub_some_le hopen
        rw [openBB_len] at hb1
        have hb2 := findSub_some_le hclose
        rw [closeBB_len, List.length_drop] at hb2
        have hrest : (remaining.drop (openPos + rel + 2)).length < n := by
          rw [List.length_drop]; omega
        split
        · split
          · -- if-arm
            split
            · rfl
            · rename_i pr hpbc
              obtain ⟨e, he, hinner, hrest2⟩ := parse_block_content_eq_some hpbc
              have hee := findSub_some_le he
              rw [end_pattern_length, List.length_drop] at hee
              have hendif : ("endif".data).length = 5 := rfl
              rw [hendif] at hee
              have hpat : (end_pattern "endif".data).length = 11 := rfl
              rw [hpat] at hrest2
              have hclose2 : closeBB <+:
                  (remaining.drop (openPos + rel + 2)).drop (e + 9) := by
                have h1 := closeBB_at_endPat (findSub_prefix_of_some he)
                rw [List.drop_drop, hendif] at h1
                exact h1
              obtain ⟨hd'pre, hd'no⟩ := hdrest
              have hd'gt : e + 9 < d - (openPos + rel + 2) := by
                by_contra hcon
                exact hd'no (e + 9) (by omega) hclose2
              have hd'ne : d - (openPos + rel + 2) ≠ e + 10 := by
                intro hcontra
                exact not_openBB_after_closeBB hclose2 (hcontra ▸ hd'pre)
              have hd'ge : e + 11 ≤ d - (openPos + rel + 2) := by omega
              have hdrest2 : danglingAt
                  ((remaining.drop (openPos + rel + 2)).drop (e + 11))
                  (d - (openPos + rel + 2) - (e + 11)) :=
                danglingAt_drop ⟨hd'pre, hd'no⟩ hd'ge
              have hrest2len : ((remaining.drop (openPos + rel + 2)).drop (e + 11)).length
                  < n := by
                rw [List.length_drop, List.length_drop]; omega
              subst hinner hrest2
              have helse : elsePattern.length = 10 := rfl
              cases hso : splitOnceSub
                  (List.take e (remaining.drop (openPos + rel + 2))) elsePattern with
              | none =>
                simp only [hso]
                refine Res.bind_eq_err (parse_cbl_ne_fuelOut fns n _ ?_) (fun tns => ?_)
                · rw [List.length_take, List.length_drop]; omega
                · simp only [Res.bind]
                  rw [ih _ _ hdrest2 hrest2len]
              | some ab =>
                obtain ⟨a, b⟩ := ab
                obtain ⟨i, hi, ha, hb⟩ := splitOnceSub_eq_some hso
                have hilen := findSub_some_le hi
                rw [helse, List.length_take, List.length_drop] at hilen
                simp only [hso]
                subst ha hb
                refine Res.bind_eq_err (parse_cbl_ne_fuelOut fns n _ ?_) (fun tns => ?_)
                · rw [List.length_take, List.length_take, List.length_drop]; omega
                · refine Res.bind_eq_err
                    (Res.map_ne_fuelOut (parse_cbl_ne_fuelOut fns n _ ?_)) (fun fn => ?_)
                  · rw [helse, List.length_drop, List.length_take, List.length_drop]
                    omega
                  · rw [ih _ _ hdrest2 hrest2len]; rfl
          · -- fallback
            rw [ih _ _ hdrest hrest]; rfl
        · split
          · rw [ih _ _ hdrest hrest]; rfl
          · rw [ih _ _ hdrest hrest]; rfl
        · split
          · split
            · rfl
            · rename_i pr hpbc
              obtain ⟨e, he, hinner, hrest2⟩ := parse_block_content_eq_some hpbc
              have hee := findSub_some_le he
              rw [end_pattern_length, List.length_drop] at hee
              have hendfe : ("endforeach".data).length = 10 := rfl
              rw [hendfe] at hee
              have hpat : (end_pattern "endforeach".data).length = 16 := rfl
              rw [hpat] at hrest2
              have hclose2 : closeBB <+:
                  (remaining.drop (openPos + rel + 2)).drop (e + 14) := by
                have h1 := closeBB_at_endPat (findSub_prefix_of_some he)
                rw [List.drop_drop, hendfe] at h1
                exact h1
              obtain ⟨hd'pre, hd'no⟩ := hdrest
              have hd'gt : e + 14 < d - (openPos + rel + 2) := by
                by_contra hcon
                exact hd'no (e + 14) (by omega) hclose2
              have hd'ne : d - (openPos + rel + 2) ≠ e + 15 := by
                intro hcontra
                exact not_openBB_after_closeBB hclose2 (hcontra ▸ hd'pre)
              have hd'ge : e + 16 ≤ d - (openPos + rel + 2) := by omega
              have hdrest2 : danglingAt
                  ((remaining.drop (openPos + rel + 2)).drop (e + 16))
                  (d - (openPos + rel + 2) - (e + 16)) :=
                danglingAt_drop ⟨hd'pre, hd'no⟩ hd'ge
              have hrest2len : ((remaining.drop (openPos + rel + 2)).drop (e + 16)).length
                  < n := by
                rw [List.length_drop, List.length_drop]; omega
              subst hinner hrest2
              refine Res.bind_eq_err (parse_cbl_ne_fuelOut fns n _ ?_) (fun ins => ?_)
              · rw [List.length_take, List.length_drop]; omega
              · rw [ih _ _ hdrest2 hrest2len]; rfl
          · rw [ih _ _ hdrest hrest]; rfl
        · rw [ih _ _ hdrest hrest]; rfl

/-- C9: `parse_control_blocks` panics on every input that contains an
    opening `\x7b\x7b` with no closing `\x7d\x7d` at or after it: for any
    such input (and any fuel beyond the input's length, which the
    sufficiency lemma `parse_cbl_ne_fuelOut` shows is always enough),
    parsing ends in the modelled panic rather than falling back to
    literal text — the parser is total only when every opening delimiter
    is eventually closed. -/
theorem C9_unterminated_open_panics (fns : List Str) (content : Str) (fuel : Nat)
    (h : ∃ d, danglingAt content d) (hfuel : content.length < fuel) :
    parse_control_blocks fns fuel content = .err := by
  obtain ⟨d, hd⟩ := h
  unfold parse_control_blocks
  rw [parse_cbl_dangling_err fns fuel content d hd hfuel]
  rfl

/-- C9 witness: the two-character input `\x7b\x7b` panics. -/
theorem C9_witness : parse_control_blocks [] 3 "\x7b\x7b".data = .err := by
  refine C9_unterminated_open_panics [] _ 3 ⟨0, ?_, ?_⟩ (by decide)
  · exact List.isPrefixOf_iff_prefix.mp (by decide)
  · intro j hj hcontra
    match j with
    | 0 => exact absurd (List.isPrefixOf_iff_prefix.mpr hcontra) (by decide)
    | 1 => exact absurd (List.isPrefixOf_iff_prefix.mpr hcontra) (by decide)
    | (k + 2) =>
      rw [List.drop_eq_nil_of_le (by simp)] at hcontra
      rw [List.prefix_nil] at hcontra
      exact absurd hcontra (by decide)
